import Mathlib

/-!
Verification of the TOTP core of `proton-pass-common` against its
natural-language specification.

The development shallowly embeds, in Lean:
  * `proton-pass-common/src/totp/components.rs` (translated directly from
    the Rust source: `TOTPComponents`, its gates, and `from_uri`);
  * the parts of the repository that the specification describes but whose
    source is not available here (the `Algorithm` enum, the `TOTP`
    configuration and its token-generation algorithm, the query-value
    accessors, and the sanitizer); these are modelled from the
    specification text and each of their doc comments says so;
  * the two external collaborators (the generic-URI parser and the
    query-string parser), modelled from the boundary contract stated in
    the specification.

Machine strings are Lean `String`s; all definitions are computable and
use structural recursion so concrete instances evaluate inside the kernel.
-/

/-! ## Basic character and list helpers -/

/-- Modelled from the spec: ASCII lowercasing of a single character, the
normalization used by the case-insensitive comparisons of the Rust code
(`to_lowercase`) restricted to the basic latin range that the recognized
tokens `otpauth`, `totp`, `SHA1`, `SHA256`, `SHA512` use. -/
def lowerChar (c : Char) : Char :=
  if 65 ≤ c.toNat ∧ c.toNat ≤ 90 then Char.ofNat (c.toNat + 32) else c

/-- ASCII lowercasing of a string, character by character. -/
def lowerStr (s : String) : String :=
  String.mk (s.data.map lowerChar)

/-- Split a character list at the first occurrence of `c`, returning the
parts before and after it, or `none` when `c` does not occur. -/
def breakAtChar (c : Char) : List Char → Option (List Char × List Char)
  | [] => none
  | x :: xs =>
    if x = c then some ([], xs)
    else (breakAtChar c xs).map fun p => (x :: p.1, p.2)

/-- Split a character list on every occurrence of `c`; the result is
always nonempty and contains the separated chunks in order. -/
def splitOnChar (c : Char) : List Char → List (List Char)
  | [] => [[]]
  | x :: xs =>
    if x = c then [] :: splitOnChar c xs
    else
      match splitOnChar c xs with
      | [] => [[x]]
      | h :: t => (x :: h) :: t

/-- Substring containment on character lists, the model of Rust
`str::contains` used by the mobile token generator. -/
def listContainsSub (pat : List Char) : List Char → Bool
  | [] => pat.isPrefixOf []
  | x :: xs => pat.isPrefixOf (x :: xs) || listContainsSub pat xs

/-- Substring containment on strings. -/
def containsSub (s pat : String) : Bool :=
  listContainsSub pat.data s.data

/-- Parse a nonempty all-digit string as a natural number; any other
string fails.  This is the model of Rust `str::parse` for the unsigned
integer types used by the `digits` and `period` query values. -/
def parseDecNat (s : String) : Option Nat :=
  if s.data ≠ [] ∧ s.data.all (·.isDigit) then
    some (s.data.foldl (fun a c => a * 10 + (c.toNat - 48)) 0)
  else none

/-- Parse a decimal string and require the value to fit under `bound`
(255 for `u8`, 65535 for `u16`); failure is `none`. -/
def parseBoundedNat (bound : Nat) (s : String) : Option Nat :=
  (parseDecNat s).bind fun n => if n ≤ bound then some n else none

/-- Decimal digit character for a value below ten. -/
def digitToChar (n : Nat) : Char := Char.ofNat (48 + n)

/-- Fuel-driven decimal rendering (most significant digit first); the
fuel bounds the recursion depth so the kernel can evaluate it. -/
def decChars : Nat → Nat → List Char
  | 0, _ => []
  | fuel + 1, n =>
    if n < 10 then [digitToChar n]
    else decChars fuel (n / 10) ++ [digitToChar (n % 10)]

/-- Decimal rendering of a natural number, the model of Rust integer
formatting. -/
def decRender (n : Nat) : String := String.mk (decChars (n + 1) n)

/-- Left-pad a string with zeros up to width `n`, the model of Rust
`format!` with a zero-fill minimum width. -/
def leftPadZero (n : Nat) (s : String) : String :=
  String.mk (List.replicate (n - s.data.length) '0' ++ s.data)

/-! ## Error taxonomy and algorithm enumeration -/

/-- Translated from `proton-pass-common/src/totp/error.rs` as the spec
describes it (section 7): the closed error set shared by parsing,
algorithm lookup and token generation.  The `URIError` payload is the
collaborator detail rendered as text. -/
inductive TOTPError where
  | URIError (detail : String)
  | InvalidScheme (found : String)
  | NoAuthority
  | InvalidAuthority (found : String)
  | NoQueries
  | NoSecret
  | EmptySecret
  | InvalidAlgorithm (found : String)
  | SecretDecodingError
  | ZeroPeriodError
  deriving DecidableEq, Repr

/-- Modelled from the spec: the closed `Algorithm` enumeration of
`proton-pass-common/src/totp/algorithm.rs` (not available in source
form), section 3. -/
inductive Algorithm where
  | SHA1
  | SHA256
  | SHA512
  deriving DecidableEq, Repr

/-- Modelled from the spec: case-insensitive parsing of the literal
tokens `SHA1`, `SHA256`, `SHA512`; any other value fails with
`InvalidAlgorithm` carrying the raw value (spec section 4.1). -/
def Algorithm.new (value : String) : Except TOTPError Algorithm :=
  if lowerStr value = "sha1" then .ok .SHA1
  else if lowerStr value = "sha256" then .ok .SHA256
  else if lowerStr value = "sha512" then .ok .SHA512
  else .error (.InvalidAlgorithm value)

/-- Canonical textual form of an algorithm. -/
def Algorithm.toStr : Algorithm → String
  | .SHA1 => "SHA1"
  | .SHA256 => "SHA256"
  | .SHA512 => "SHA512"

/-! ## Queries: the parsed query mapping and its accessors -/

/-- Modelled from the spec: the mapping of string keys to string values
produced by the query-string collaborator (spec section 6); an
association list looked up by first match. -/
abbrev Queries := List (String × String)

/-- Modelled from the spec: the accessor `get_string_value` of
`proton-pass-common/src/totp/get_value.rs` (not available in source
form): the raw string value for a key, or `none` when absent. -/
def Queries.get_string_value (qs : Queries) (key : String) : Option String :=
  (qs.find? fun p => p.1 = key).map fun p => p.2

/-- Modelled from the spec: the accessor `get_string_parsable_value` of
`get_value.rs`: parse the string value for a key as a bounded unsigned
integer, with parse failure treated as absence (spec sections 4.2 and 9). -/
def Queries.get_string_parsable_value (qs : Queries) (bound : Nat) (key : String) :
    Option Nat :=
  (qs.get_string_value key).bind (parseBoundedNat bound)

/-! ## The parsed generic URI (collaborator output) -/

/-- Modelled from the spec: the interface of the generic-URI collaborator
(spec section 6): a scheme, an optional authority, the ordered path
segments, and an optional raw query string. -/
structure ParsedURI where
  scheme : String
  authority : Option String
  segments : List String
  query : Option String
  deriving DecidableEq, Repr

/-- Modelled from the spec: a canonical instance of the generic-URI
collaborator over raw strings.  The scheme is everything before the
first colon (required to be nonempty and made of scheme characters, and
normalized to lowercase as the spec states in section 8); a following
`//` introduces the authority, read up to the next slash; the remaining
path is split on slashes into segments; everything after the first
question mark is the raw query string. -/
def schemeChar (c : Char) : Bool :=
  c.isAlpha || c.isDigit || c = '+' || c = '-' || c = '.'

/-- The hierarchical part of the remainder of a URI: everything before
the first question mark (or all of it when there is none). -/
def uriHierPart (l : List Char) : List Char :=
  match breakAtChar '?' l with
  | none => l
  | some (h, _) => h

/-- The raw query of the remainder of a URI: everything after the first
question mark, absent when there is none. -/
def uriQueryPart (l : List Char) : Option String :=
  match breakAtChar '?' l with
  | none => none
  | some (_, qs) => some (String.mk qs)

/-- The branch of the URI collaborator for a remainder introduced by
`//`: the authority is read up to the next slash, the rest of the
hierarchical part is split into path segments (an empty path giving the
single empty segment). -/
def parseHierAuthority (scheme : String) (rest₂ : List Char) :
    Option ParsedURI :=
  match splitOnChar '/' (uriHierPart rest₂) with
  | [] => none
  | auth :: pathSegs =>
    some { scheme := scheme
           authority := some (String.mk auth)
           segments := if pathSegs = [] then [""] else pathSegs.map String.mk
           query := uriQueryPart rest₂ }

/-- The branch of the URI collaborator for a remainder without `//`:
no authority, the hierarchical part split into segments. -/
def parseHierPlain (scheme : String) (other : List Char) : Option ParsedURI :=
  some { scheme := scheme
         authority := none
         segments := (splitOnChar '/' (uriHierPart other)).map String.mk
         query := uriQueryPart other }

/-- The URI collaborator after the scheme has been read: the scheme must
be a nonempty run of scheme characters (and is stored lowercased); a
leading `//` introduces the authority branch. -/
def parseAfterScheme (sch rest : List Char) : Option ParsedURI :=
  if sch = [] ∨ ¬ sch.all schemeChar then none
  else
    match rest with
    | '/' :: '/' :: rest₂ => parseHierAuthority (String.mk (sch.map lowerChar)) rest₂
    | other => parseHierPlain (String.mk (sch.map lowerChar)) other

/-- Modelled from the spec: parse a raw character list as a generic URI;
`none` means the input is not syntactically a URI.  The scheme is
everything before the first colon (a URI without a colon is invalid). -/
def parseURIList (l : List Char) : Option ParsedURI :=
  match breakAtChar ':' l with
  | none => none
  | some (sch, rest) => parseAfterScheme sch rest

/-- Modelled from the spec: the generic-URI collaborator on strings. -/
def parseURIStr (s : String) : Option ParsedURI := parseURIList s.data

/-- Modelled from the spec: the query-string collaborator: split the raw
query on ampersands, and each chunk at its first equals sign into a key
and a value (a chunk without an equals sign maps to the empty value). -/
def parseQueryList (l : List Char) : Queries :=
  (splitOnChar '&' l).map fun chunk =>
    match breakAtChar '=' chunk with
    | none => (String.mk chunk, "")
    | some (k, v) => (String.mk k, String.mk v)

/-- Modelled from the spec: the query-string collaborator on strings,
returning `none` on a parse failure (the canonical model always
produces a mapping). -/
def parseQueryStr (s : String) : Option Queries := some (parseQueryList s.data)

/-! ## TOTPComponents: translated from `components.rs` -/

/-- Translated from `proton-pass-common/src/totp/components.rs`: the
intermediate, still-optional result of parsing an `otpauth` URI. -/
structure TOTPComponents where
  label : Option String
  secret : String
  issuer : Option String
  algorithm : Option Algorithm
  digits : Option Nat
  period : Option Nat
  deriving DecidableEq, Repr

namespace TOTPComponents

/-- Translated from `components.rs` (`check_scheme`): the scheme must
equal `otpauth` case-insensitively, otherwise `InvalidScheme` carries
the scheme as stored by the URI collaborator. -/
def check_scheme (uri : ParsedURI) : Except TOTPError Unit :=
  if lowerStr uri.scheme = "otpauth" then .ok ()
  else .error (.InvalidScheme uri.scheme)

/-- Translated from `components.rs` (`check_otp_type`): the authority
must be present and nonempty (`NoAuthority` otherwise) and equal to
`totp` case-insensitively (`InvalidAuthority` carrying it otherwise). -/
def check_otp_type (uri : ParsedURI) : Except TOTPError Unit :=
  match uri.authority with
  | some value =>
    if value = "" then .error .NoAuthority
    else if lowerStr value = "totp" then .ok ()
    else .error (.InvalidAuthority value)
  | none => .error .NoAuthority

/-- Translated from `components.rs` (`parse_label`): the last path
segment, untouched; an empty (or missing) segment gives `none`. -/
def parse_label (uri : ParsedURI) : Option String :=
  match uri.segments.getLast? with
  | some value => if value = "" then none else some value
  | none => none

/-- Translated from `components.rs` (`parse_queries`): the query must be
present and the collaborator must turn it into a mapping; both failure
modes are `NoQueries`. -/
def parse_queries (parseQ : String → Option Queries) (uri : ParsedURI) :
    Except TOTPError Queries :=
  match uri.query with
  | none => .error .NoQueries
  | some qs =>
    match parseQ qs with
    | some value => .ok value
    | none => .error .NoQueries

/-- Translated from `components.rs` (`get_secret`): the `secret` key is
required (`NoSecret` when absent) and must be nonempty (`EmptySecret`). -/
def get_secret (queries : Queries) : Except TOTPError String :=
  match queries.get_string_value "secret" with
  | some value => if value = "" then .error .EmptySecret else .ok value
  | none => .error .NoSecret

/-- Translated from `components.rs` (`get_algorithm`): an absent
`algorithm` key is `none`; a present one must parse via `Algorithm.new`
and its failure propagates. -/
def get_algorithm (queries : Queries) : Except TOTPError (Option Algorithm) :=
  match queries.get_string_value "algorithm" with
  | some value =>
    match Algorithm.new value with
    | .ok algorithm => .ok (some algorithm)
    | .error error => .error error
  | none => .ok none

/-- Translated from `components.rs` (`parse_uri`): the gate sequence on
an already-parsed URI, in source order: scheme, authority, label,
queries, secret, issuer, algorithm, digits, period. -/
def parse_uri (parseQ : String → Option Queries) (uri : ParsedURI) :
    Except TOTPError TOTPComponents := do
  check_scheme uri
  check_otp_type uri
  let label := parse_label uri
  let queries ← parse_queries parseQ uri
  let secret ← get_secret queries
  let issuer := queries.get_string_value "issuer"
  let algorithm ← get_algorithm queries
  let digits := queries.get_string_parsable_value 255 "digits"
  let period := queries.get_string_parsable_value 65535 "period"
  return { label, secret, issuer, algorithm, digits, period }

/-- Translated from `components.rs` (`from_uri`): run the generic-URI
collaborator and then the gate sequence; a collaborator failure is
`URIError`. -/
def from_uri (uri : String) : Except TOTPError TOTPComponents :=
  match parseURIStr uri with
  | some parsed => parse_uri parseQueryStr parsed
  | none => .error (.URIError "invalid URI")

end TOTPComponents

/-! ## TOTP: the defaulted configuration and token generation -/

/-- Modelled from the spec: the fully defaulted TOTP configuration of
`proton-pass-common/src/totp/totp.rs` (not available in source form),
section 3: secret always present, algorithm defaulted to SHA1, digits
to 6, period to 30. -/
structure TOTP where
  label : Option String
  secret : String
  issuer : Option String
  algorithm : Algorithm
  digits : Nat
  period : Nat
  deriving DecidableEq, Repr

/-- Modelled from the spec: the default TOTP value used for a bare
secret (spec sections 3 and 4.3). -/
def TOTP.default : TOTP :=
  { label := none, secret := "", issuer := none
    algorithm := .SHA1, digits := 6, period := 30 }

/-- Modelled from the spec: building a `TOTP` from parsed components
(spec section 4.3): copy label, secret and issuer; default the rest. -/
def TOTP.fromComponents (c : TOTPComponents) : TOTP :=
  { label := c.label, secret := c.secret, issuer := c.issuer
    algorithm := c.algorithm.getD .SHA1
    digits := c.digits.getD 6
    period := c.period.getD 30 }

/-- Modelled from the spec: `TOTP::from_uri`, parsing then defaulting. -/
def TOTP.from_uri (uri : String) : Except TOTPError TOTP :=
  (TOTPComponents.from_uri uri).map TOTP.fromComponents

/-- The 8-byte big-endian encoding of a counter, most significant byte
first, as the token algorithm feeds it to the HMAC collaborator. -/
def beBytes8 (n : Nat) : List Nat :=
  (List.range 8).map fun i => n / 2 ^ (8 * (7 - i)) % 256

/-- The type of the HMAC collaborator (spec section 6): an algorithm
selector, the textual secret used as key, and a message, producing the
hash output bytes or failing on a key-decoding problem. -/
def HmacFun := Algorithm → String → List Nat → Option (List Nat)

/-- Modelled from the spec: `TOTP::generate_token` (spec section 4.3).
The counter is the integer division of the time by the period (a zero
period is a dedicated error); the HMAC of the 8-byte big-endian counter
is dynamically truncated: the low 4 bits of the last byte give the
offset, 4 bytes there are read big-endian with the top bit masked; the
token is that integer modulo `10 ^ digits`, zero-padded to `digits`. -/
def TOTP.generate_token (hmac : HmacFun) (t : TOTP) (current_time : Nat) :
    Except TOTPError String :=
  if t.period = 0 then .error .ZeroPeriodError
  else
    match hmac t.algorithm t.secret (beBytes8 (current_time / t.period)) with
    | none => .error .SecretDecodingError
    | some bytes =>
      let offset := bytes.getLastD 0 % 16
      let truncated :=
        (bytes.getD offset 0 % 128) * 2 ^ 24 +
        bytes.getD (offset + 1) 0 * 2 ^ 16 +
        bytes.getD (offset + 2) 0 * 2 ^ 8 +
        bytes.getD (offset + 3) 0
      .ok (leftPadZero t.digits (decRender (truncated % 10 ^ t.digits)))

/-! ## Sanitizer: edit/save reconciliation -/

/-- The query pair list a serialized URI carries: the secret first, then
each optional field that is present, in the fixed order issuer,
algorithm, digits, period. -/
def queryPairs (c : TOTPComponents) : Queries :=
  ("secret", c.secret) ::
    ((match c.issuer with
      | some i => [("issuer", i)]
      | none => []) ++
     (match c.algorithm with
      | some a => [("algorithm", a.toStr)]
      | none => []) ++
     (match c.digits with
      | some d => [("digits", decRender d)]
      | none => []) ++
     (match c.period with
      | some p => [("period", decRender p)]
      | none => []))

/-- Join query pairs with equals signs and ampersands. -/
def joinQuery : Queries → String
  | [] => ""
  | [(k, v)] => k ++ "=" ++ v
  | (k, v) :: rest => k ++ "=" ++ v ++ "&" ++ joinQuery rest

/-- Modelled from the spec: rebuild an `otpauth://totp/...` URI from
components (spec section 4.4: carry label, issuer, algorithm, digits,
period and the secret into the saved URI). -/
def serializeComponents (c : TOTPComponents) : String :=
  "otpauth://totp/" ++ c.label.getD "" ++ "?" ++ joinQuery (queryPairs c)

/-- Modelled from the spec: `uri_for_saving` of
`proton-pass-common/src/totp/sanitizer.rs` (not available in source
form), section 4.4: an edited value that looks like an otpauth URI is
validated and returned (validation failure propagates); otherwise it is
a replacement bare secret: a structured original is rebuilt with the
new secret and all other fields carried over, and a bare original is
replaced outright. -/
def uri_for_saving (original_uri edited_uri : String) : Except TOTPError String :=
  if containsSub edited_uri "otpauth" then
    match TOTPComponents.from_uri edited_uri with
    | .ok _ => .ok edited_uri
    | .error e => .error e
  else
    match TOTPComponents.from_uri original_uri with
    | .ok c => .ok (serializeComponents { c with secret := edited_uri })
    | .error _ => .ok edited_uri

/-! ## Mobile token generator -/

/-- Translated from `proton-pass-mobile/src/totp.rs`: the value object
pairing the TOTP snapshot, the token, and the timestamp used. -/
structure TotpTokenResult where
  totp : TOTP
  token : String
  timestamp : Nat
  deriving DecidableEq, Repr

/-- Translated from `proton-pass-mobile/src/totp.rs`
(`TotpTokenGenerator::generate_token`): an input containing the
substring `otpauth` goes through `TOTP::from_uri` with errors
propagated; any other input is used verbatim as the secret of a
defaulted TOTP; the result carries the supplied time as timestamp. -/
def TotpTokenGenerator.generate_token (hmac : HmacFun) (uri : String)
    (current_time : Nat) : Except TOTPError TotpTokenResult := do
  let totp ←
    if containsSub uri "otpauth" then TOTP.from_uri uri
    else .ok { TOTP.default with secret := uri }
  let token ← totp.generate_token hmac current_time
  return { totp, token, timestamp := current_time }

/-! ## Supporting lemmas: decimal rendering and padding -/

theorem decChars_length_le : ∀ fuel n k, n < 10 ^ k → 1 ≤ k → n < fuel →
    (decChars fuel n).length ≤ k := by
  intro fuel
  induction fuel with
  | zero => intro n k _ _ h; omega
  | succ m ih =>
    intro n k hk h1 hf
    rw [decChars]
    split
    · simpa using h1
    · rename_i h10
      have hk2 : 2 ≤ k := by
        rcases Nat.lt_or_ge k 2 with h | h
        · have hk1 : k = 1 := by omega
          subst hk1
          simp at hk
          omega
        · exact h
      have hdiv : n / 10 < 10 ^ (k - 1) := by
        have hmul : n < 10 ^ (k - 1) * 10 := by
          have : 10 ^ (k - 1) * 10 = 10 ^ k := by
            rw [← pow_succ]
            congr 1
            omega
          omega
        omega
      have hfm : n / 10 < m := by
        have hlt : n / 10 < n := Nat.div_lt_self (by omega) (by norm_num)
        omega
      have hrec := ih (n / 10) (k - 1) hdiv (by omega) hfm
      simp only [List.length_append, List.length_cons, List.length_nil]
      omega

theorem decRender_length_le (n k : Nat) (h : n < 10 ^ k) (hk : 1 ≤ k) :
    (decRender n).length ≤ k := by
  have := decChars_length_le (n + 1) n k h hk (Nat.lt_succ_self n)
  simpa [decRender] using this

theorem leftPadZero_length (n : Nat) (s : String) (h : s.length ≤ n) :
    (leftPadZero n s).length = n := by
  have hs : s.data.length ≤ n := h
  simp only [leftPadZero, String.length_mk, List.length_append,
    List.length_replicate]
  omega

/-- A concrete HMAC collaborator used for concrete evaluations: it
always succeeds and returns twenty zero bytes (the SHA1 output width). -/
def hmacZeros : HmacFun := fun _ _ _ => some (List.replicate 20 0)

/-- C1 (amended): for every HMAC collaborator, configuration with a
positive digit count, and time, `generate_token` is deterministic and on
success returns a token string of length exactly `digits` (the truncated
integer reduced modulo `10 ^ digits` and left-zero-padded, with no
clamping of digits outside 6..10). -/
theorem generate_token_deterministic_and_length (hmac : HmacFun) (t : TOTP)
    (time : Nat) (h : 1 ≤ t.digits) :
    TOTP.generate_token hmac t time = TOTP.generate_token hmac t time ∧
    ∀ s, TOTP.generate_token hmac t time = .ok s → s.length = t.digits := by
  refine ⟨rfl, ?_⟩
  intro s hs
  rw [TOTP.generate_token] at hs
  by_cases hp : t.period = 0
  · rw [if_pos hp] at hs
    cases hs
  · rw [if_neg hp] at hs
    cases h2 : hmac t.algorithm t.secret (beBytes8 (time / t.period)) with
    | none => rw [h2] at hs; cases hs
    | some bytes =>
      rw [h2] at hs
      simp only [] at hs
      cases hs
      apply leftPadZero_length
      apply decRender_length_le
      · exact Nat.mod_lt _ (Nat.pos_pow_of_pos _ (by norm_num))
      · exact h

/-- A configuration with an explicit digit count of zero, reachable
because no clamping is applied to the digits value. -/
def totpDigitsZero : TOTP :=
  { label := none, secret := "SOMESECRET", issuer := none
    algorithm := .SHA1, digits := 0, period := 30 }

/-- C1 counterexample: with `digits = 0` the generated token is the
one-character string `0`, whose length is not `digits`; so the token
length is not exactly `digits` for every configuration. -/
theorem generate_token_digits_zero_cex :
    TOTP.generate_token hmacZeros totpDigitsZero 0 = .ok "0" ∧
    ("0" : String).length ≠ totpDigitsZero.digits := by
  constructor
  · rfl
  · decide

/-- A six-digit configuration used to witness the amended C1 theorem. -/
def totpSixDigits : TOTP :=
  { label := none, secret := "SOMESECRET", issuer := none
    algorithm := .SHA1, digits := 6, period := 30 }

/-- Witness for the amended C1 theorem at a concrete configuration. -/
theorem generate_token_deterministic_and_length_witness :
    ("000000" : String).length = totpSixDigits.digits :=
  (generate_token_deterministic_and_length hmacZeros totpSixDigits 59
    (by decide)).2 "000000" rfl

/-! ## Supporting lemmas: the gate chain of `parse_uri` -/

theorem except_bind_ok {ε α β : Type} (a : α) (f : α → Except ε β) :
    Except.bind (.ok a) f = f a := rfl

theorem except_bind_error {ε α β : Type} (e : ε) (f : α → Except ε β) :
    (Except.bind (.error e) f : Except ε β) = .error e := rfl

theorem parse_uri_def (pq : String → Option Queries) (u : ParsedURI) :
    TOTPComponents.parse_uri pq u =
      Except.bind (TOTPComponents.check_scheme u) fun _ =>
      Except.bind (TOTPComponents.check_otp_type u) fun _ =>
      Except.bind (TOTPComponents.parse_queries pq u) fun queries =>
      Except.bind (TOTPComponents.get_secret queries) fun secret =>
      Except.bind (TOTPComponents.get_algorithm queries) fun algorithm =>
      .ok { label := TOTPComponents.parse_label u
            secret := secret
            issuer := queries.get_string_value "issuer"
            algorithm := algorithm
            digits := queries.get_string_parsable_value 255 "digits"
            period := queries.get_string_parsable_value 65535 "period" } := rfl

theorem Algorithm.new_error {a : String} {e : TOTPError}
    (h : Algorithm.new a = .error e) : e = .InvalidAlgorithm a := by
  unfold Algorithm.new at h
  split_ifs at h
  simp_all

theorem get_algorithm_cases (qs : Queries) :
    (∃ x, TOTPComponents.get_algorithm qs = .ok x) ∨
    (∃ a, qs.get_string_value "algorithm" = some a ∧
      TOTPComponents.get_algorithm qs = .error (.InvalidAlgorithm a)) := by
  cases h : qs.get_string_value "algorithm" with
  | none =>
    refine .inl ⟨none, ?_⟩
    simp only [TOTPComponents.get_algorithm, h]
  | some a =>
    cases hN : Algorithm.new a with
    | ok alg =>
      refine .inl ⟨some alg, ?_⟩
      simp only [TOTPComponents.get_algorithm, h, hN]
    | error e =>
      refine .inr ⟨a, rfl, ?_⟩
      simp only [TOTPComponents.get_algorithm, h, hN, Algorithm.new_error hN]

theorem get_secret_cases (qs : Queries) :
    (∃ s, TOTPComponents.get_secret qs = .ok s ∧ s ≠ "" ∧
      qs.get_string_value "secret" = some s) ∨
    (TOTPComponents.get_secret qs = .error .NoSecret ∧
      qs.get_string_value "secret" = none) ∨
    (TOTPComponents.get_secret qs = .error .EmptySecret ∧
      qs.get_string_value "secret" = some "") := by
  unfold TOTPComponents.get_secret
  cases h : qs.get_string_value "secret" with
  | none => exact .inr (.inl ⟨rfl, rfl⟩)
  | some v =>
    by_cases hv : v = ""
    · subst hv
      exact .inr (.inr ⟨by simp, rfl⟩)
    · exact .inl ⟨v, by simp [hv], hv, rfl⟩

theorem parse_uri_ok_inv {pq : String → Option Queries} {u : ParsedURI}
    {c : TOTPComponents} (h : TOTPComponents.parse_uri pq u = .ok c) :
    TOTPComponents.check_scheme u = .ok () ∧
    TOTPComponents.check_otp_type u = .ok () ∧
    ∃ qs, TOTPComponents.parse_queries pq u = .ok qs ∧
      TOTPComponents.get_secret qs = .ok c.secret ∧
      c.label = TOTPComponents.parse_label u ∧
      c.issuer = qs.get_string_value "issuer" ∧
      TOTPComponents.get_algorithm qs = .ok c.algorithm ∧
      c.digits = qs.get_string_parsable_value 255 "digits" ∧
      c.period = qs.get_string_parsable_value 65535 "period" := by
  rw [parse_uri_def] at h
  cases hcs : TOTPComponents.check_scheme u with
  | error e => rw [hcs, except_bind_error] at h; cases h
  | ok unit₁ =>
    cases unit₁
    rw [hcs, except_bind_ok] at h
    cases hot : TOTPComponents.check_otp_type u with
    | error e => rw [hot, except_bind_error] at h; cases h
    | ok unit₂ =>
      cases unit₂
      rw [hot, except_bind_ok] at h
      cases hq : TOTPComponents.parse_queries pq u with
      | error e => rw [hq, except_bind_error] at h; cases h
      | ok qs =>
        rw [hq, except_bind_ok] at h
        cases hsec : TOTPComponents.get_secret qs with
        | error e => rw [hsec, except_bind_error] at h; cases h
        | ok secret =>
          rw [hsec, except_bind_ok] at h
          cases halg : TOTPComponents.get_algorithm qs with
          | error e => rw [halg, except_bind_error] at h; cases h
          | ok algorithm =>
            rw [halg, except_bind_ok] at h
            cases h
            exact ⟨rfl, rfl, qs, rfl, hsec, rfl, rfl, halg, rfl, rfl⟩

/-! ## Supporting lemmas: lowercasing -/

theorem toNat_ofNat_valid (n : Nat) (h : n < 55296) :
    (Char.ofNat n).toNat = n := by
  have hv : n.isValidChar := Or.inl h
  rw [Char.ofNat, dif_pos hv]
  rfl

theorem lowerChar_idem (c : Char) : lowerChar (lowerChar c) = lowerChar c := by
  unfold lowerChar
  by_cases h : 65 ≤ c.toNat ∧ c.toNat ≤ 90
  · rw [if_pos h]
    have ht : (Char.ofNat (c.toNat + 32)).toNat = c.toNat + 32 :=
      toNat_ofNat_valid _ (by omega)
    rw [if_neg]
    rw [ht]
    omega
  · rw [if_neg h, if_neg h]

theorem lowerStr_idem (s : String) : lowerStr (lowerStr s) = lowerStr s := by
  unfold lowerStr
  congr 1
  simp only [List.map_map]
  exact List.map_congr_left fun c _ => lowerChar_idem c

/-! ## The gate claims over parsed URIs -/

/-- C4: the gates of `parse_uri` run in the fixed order scheme,
authority, queries, secret, algorithm; the first violated gate alone
determines the returned error, regardless of later gates (in
particular, a bad scheme wins over a missing secret), and an error is
never accompanied by a components value. -/
theorem parse_uri_gate_order (pq : String → Option Queries) (u : ParsedURI) :
    (∀ s, parseURIStr s = none →
      TOTPComponents.from_uri s = .error (.URIError "invalid URI")) ∧
    (∀ s w, parseURIStr s = some w →
      TOTPComponents.from_uri s = TOTPComponents.parse_uri parseQueryStr w) ∧
    (lowerStr u.scheme ≠ "otpauth" →
      TOTPComponents.parse_uri pq u = .error (.InvalidScheme u.scheme)) ∧
    (∀ e, TOTPComponents.check_scheme u = .ok () →
      TOTPComponents.check_otp_type u = .error e →
      TOTPComponents.parse_uri pq u = .error e) ∧
    (∀ e, TOTPComponents.check_scheme u = .ok () →
      TOTPComponents.check_otp_type u = .ok () →
      TOTPComponents.parse_queries pq u = .error e →
      TOTPComponents.parse_uri pq u = .error e) ∧
    (∀ e qs, TOTPComponents.check_scheme u = .ok () →
      TOTPComponents.check_otp_type u = .ok () →
      TOTPComponents.parse_queries pq u = .ok qs →
      TOTPComponents.get_secret qs = .error e →
      TOTPComponents.parse_uri pq u = .error e) ∧
    (∀ e qs s, TOTPComponents.check_scheme u = .ok () →
      TOTPComponents.check_otp_type u = .ok () →
      TOTPComponents.parse_queries pq u = .ok qs →
      TOTPComponents.get_secret qs = .ok s →
      TOTPComponents.get_algorithm qs = .error e →
      TOTPComponents.parse_uri pq u = .error e) := by
  refine ⟨?_, ?_, ?_, ?_, ?_, ?_, ?_⟩
  · intro s h
    unfold TOTPComponents.from_uri
    rw [h]
  · intro s w h
    unfold TOTPComponents.from_uri
    rw [h]
  · intro h
    have hcs : TOTPComponents.check_scheme u = .error (.InvalidScheme u.scheme) := by
      unfold TOTPComponents.check_scheme
      rw [if_neg h]
    rw [parse_uri_def, hcs, except_bind_error]
  · intro e h1 h2
    rw [parse_uri_def, h1, except_bind_ok, h2, except_bind_error]
  · intro e h1 h2 h3
    rw [parse_uri_def, h1, except_bind_ok, h2, except_bind_ok, h3,
      except_bind_error]
  · intro e qs h1 h2 h3 h4
    rw [parse_uri_def, h1, except_bind_ok, h2, except_bind_ok, h3,
      except_bind_ok, h4, except_bind_error]
  · intro e qs s h1 h2 h3 h4 h5
    rw [parse_uri_def, h1, except_bind_ok, h2, except_bind_ok, h3,
      except_bind_ok, h4, except_bind_ok, h5, except_bind_error]

/-- A URI with a non-otpauth scheme and also no secret, for the C4
witness (the example named by the claim). -/
def uriHttpsNoSecret : ParsedURI :=
  { scheme := "https", authority := some "totp", segments := ["label"]
    query := none }

/-- Witness for C4: the scheme gate alone decides the error even though
the secret is also missing. -/
theorem parse_uri_gate_order_witness :
    TOTPComponents.parse_uri parseQueryStr uriHttpsNoSecret =
      .error (.InvalidScheme "https") :=
  (parse_uri_gate_order parseQueryStr uriHttpsNoSecret).2.2.1 (by decide)

/-- C7: for a URI whose stored scheme is the collaborator-normalized
(lowercased) form of the raw scheme, a non-otpauth scheme makes
`parse_uri` fail with `InvalidScheme` carrying the lowercased scheme,
and a scheme equal to `otpauth` case-insensitively passes the gate. -/
theorem invalid_scheme_lowercase_payload (pq : String → Option Queries)
    (u : ParsedURI) (raw : String) (hnorm : u.scheme = lowerStr raw) :
    (lowerStr raw ≠ "otpauth" →
      TOTPComponents.parse_uri pq u = .error (.InvalidScheme (lowerStr raw))) ∧
    (lowerStr raw = "otpauth" → TOTPComponents.check_scheme u = .ok ()) := by
  constructor
  · intro h
    have hne : lowerStr u.scheme ≠ "otpauth" := by
      rw [hnorm, lowerStr_idem]
      exact h
    have := (parse_uri_gate_order pq u).2.2.1 hne
    rw [hnorm] at this
    exact this
  · intro h
    unfold TOTPComponents.check_scheme
    rw [hnorm, lowerStr_idem, if_pos h]

/-- A URI as produced by the collaborator from an uppercase HTTPS
scheme, for the C7 witness. -/
def uriUppercaseScheme : ParsedURI :=
  { scheme := "https", authority := some "totp", segments := ["label"]
    query := some "secret=abc" }

/-- Witness for C7: raw scheme `HTTPS` yields `InvalidScheme` with the
lowercase payload `https`. -/
theorem invalid_scheme_lowercase_payload_witness :
    TOTPComponents.parse_uri parseQueryStr uriUppercaseScheme =
      .error (.InvalidScheme "https") :=
  (invalid_scheme_lowercase_payload parseQueryStr uriUppercaseScheme "HTTPS"
    (by decide)).1 (by decide)

/-- C8: with the scheme gate passing, a missing or empty authority gives
`NoAuthority`; a nonempty authority that is not `totp` case-insensitively
gives `InvalidAuthority` carrying it as found; a `totp` authority of any
case passes the gate. -/
theorem authority_gate (pq : String → Option Queries) (u : ParsedURI)
    (hscheme : lowerStr u.scheme = "otpauth") :
    ((u.authority = none ∨ u.authority = some "") →
      TOTPComponents.parse_uri pq u = .error .NoAuthority) ∧
    (∀ a, u.authority = some a → a ≠ "" → lowerStr a ≠ "totp" →
      TOTPComponents.parse_uri pq u = .error (.InvalidAuthority a)) ∧
    (∀ a, u.authority = some a → lowerStr a = "totp" →
      TOTPComponents.check_otp_type u = .ok ()) := by
  have hcs : TOTPComponents.check_scheme u = .ok () := by
    unfold TOTPComponents.check_scheme
    rw [if_pos hscheme]
  refine ⟨?_, ?_, ?_⟩
  · intro h
    have hot : TOTPComponents.check_otp_type u = .error .NoAuthority := by
      unfold TOTPComponents.check_otp_type
      rcases h with h | h
      · rw [h]
      · rw [h]
        simp
    exact (parse_uri_gate_order pq u).2.2.2.1 _ hcs hot
  · intro a ha hne hlo
    have hot : TOTPComponents.check_otp_type u = .error (.InvalidAuthority a) := by
      simp only [TOTPComponents.check_otp_type, ha]
      rw [if_neg hne, if_neg hlo]
    exact (parse_uri_gate_order pq u).2.2.2.1 _ hcs hot
  · intro a ha hlo
    have hne : a ≠ "" := by
      intro hempty
      subst hempty
      exact absurd hlo (by decide)
    simp only [TOTPComponents.check_otp_type, ha]
    rw [if_neg hne, if_pos hlo]

/-- A URI with a `hotp` authority, for the C8 witness. -/
def uriHotpAuthority : ParsedURI :=
  { scheme := "otpauth", authority := some "hotp", segments := ["label"]
    query := some "secret=abc" }

/-- Witness for C8: authority `hotp` yields `InvalidAuthority("hotp")`. -/
theorem authority_gate_witness :
    TOTPComponents.parse_uri parseQueryStr uriHotpAuthority =
      .error (.InvalidAuthority "hotp") :=
  (authority_gate parseQueryStr uriHotpAuthority (by decide)).2.1 "hotp" rfl
    (by decide) (by decide)

theorem parse_uri_ok_eq (pq : String → Option Queries) (u : ParsedURI)
    (qs : Queries) (hcs : TOTPComponents.check_scheme u = .ok ())
    (hot : TOTPComponents.check_otp_type u = .ok ())
    (hq : TOTPComponents.parse_queries pq u = .ok qs)
    (s : String) (hsec : TOTPComponents.get_secret qs = .ok s)
    (x : Option Algorithm) (halg : TOTPComponents.get_algorithm qs = .ok x) :
    TOTPComponents.parse_uri pq u =
      .ok { label := TOTPComponents.parse_label u
            secret := s
            issuer := qs.get_string_value "issuer"
            algorithm := x
            digits := qs.get_string_parsable_value 255 "digits"
            period := qs.get_string_parsable_value 65535 "period" } := by
  rw [parse_uri_def, hcs, except_bind_ok, hot, except_bind_ok, hq,
    except_bind_ok, hsec, except_bind_ok, halg, except_bind_ok]

theorem parse_uri_result_cases (pq : String → Option Queries) (u : ParsedURI)
    (qs : Queries) (hcs : TOTPComponents.check_scheme u = .ok ())
    (hot : TOTPComponents.check_otp_type u = .ok ())
    (hq : TOTPComponents.parse_queries pq u = .ok qs) :
    (TOTPComponents.parse_uri pq u = .error .NoSecret ∧
      qs.get_string_value "secret" = none) ∨
    (TOTPComponents.parse_uri pq u = .error .EmptySecret ∧
      qs.get_string_value "secret" = some "") ∨
    (∃ a, qs.get_string_value "algorithm" = some a ∧
      TOTPComponents.parse_uri pq u = .error (.InvalidAlgorithm a) ∧
      ∃ s, qs.get_string_value "secret" = some s ∧ s ≠ "") ∨
    (∃ c, TOTPComponents.parse_uri pq u = .ok c ∧
      qs.get_string_value "secret" = some c.secret ∧ c.secret ≠ "") := by
  rcases get_secret_cases qs with ⟨s, hsec, hne, hget⟩ | ⟨hsec, hget⟩ | ⟨hsec, hget⟩
  · rcases get_algorithm_cases qs with ⟨x, halg⟩ | ⟨a, hgeta, halg⟩
    · exact .inr (.inr (.inr
        ⟨_, parse_uri_ok_eq pq u qs hcs hot hq s hsec x halg, hget, hne⟩))
    · refine .inr (.inr (.inl ⟨a, hgeta, ?_, s, hget, hne⟩))
      exact (parse_uri_gate_order pq u).2.2.2.2.2.2 _ qs s hcs hot hq hsec halg
  · refine .inl ⟨?_, hget⟩
    exact (parse_uri_gate_order pq u).2.2.2.2.2.1 _ qs hcs hot hq hsec
  · refine .inr (.inl ⟨?_, hget⟩)
    exact (parse_uri_gate_order pq u).2.2.2.2.2.1 _ qs hcs hot hq hsec

/-- C3: when the earlier gates pass and the query mapping is present,
`parse_uri` fails with `NoSecret` exactly when the `secret` key is
absent, fails with `EmptySecret` exactly when the key is present with an
empty value, and never succeeds with an empty secret. -/
theorem secret_gate_iff (pq : String → Option Queries) (u : ParsedURI)
    (q : String) (m : Queries)
    (hcs : TOTPComponents.check_scheme u = .ok ())
    (hot : TOTPComponents.check_otp_type u = .ok ())
    (hq : u.query = some q) (hpq : pq q = some m) :
    (TOTPComponents.parse_uri pq u = .error .NoSecret ↔
      m.get_string_value "secret" = none) ∧
    (TOTPComponents.parse_uri pq u = .error .EmptySecret ↔
      m.get_string_value "secret" = some "") ∧
    (∀ c, TOTPComponents.parse_uri pq u = .ok c → c.secret ≠ "") := by
  have hq' : TOTPComponents.parse_queries pq u = .ok m := by
    simp only [TOTPComponents.parse_queries, hq, hpq]
  rcases parse_uri_result_cases pq u m hcs hot hq' with
    ⟨hres, hget⟩ | ⟨hres, hget⟩ | ⟨a, hgeta, hres, s, hget, hne⟩ |
    ⟨c, hres, hget, hne⟩
  · refine ⟨⟨fun _ => hget, fun _ => hres⟩, ⟨?_, ?_⟩, ?_⟩
    · intro h; rw [hres] at h; simp at h
    · intro h; rw [hget] at h; simp at h
    · intro c h; rw [hres] at h; simp at h
  · refine ⟨⟨?_, ?_⟩, ⟨fun _ => hget, fun _ => hres⟩, ?_⟩
    · intro h; rw [hres] at h; simp at h
    · intro h; rw [hget] at h; simp at h
    · intro c h; rw [hres] at h; simp at h
  · refine ⟨⟨?_, ?_⟩, ⟨?_, ?_⟩, ?_⟩
    · intro h; rw [hres] at h; simp at h
    · intro h; rw [hget] at h; simp at h
    · intro h; rw [hres] at h; simp at h
    · intro h; rw [hget] at h; simp at h; exact absurd h hne
    · intro c h; rw [hres] at h; simp at h
  · refine ⟨⟨?_, ?_⟩, ⟨?_, ?_⟩, ?_⟩
    · intro h; rw [hres] at h; simp at h
    · intro h; rw [hget] at h; simp at h
    · intro h; rw [hres] at h; simp at h
    · intro h; rw [hget] at h; simp at h; exact absurd h hne
    · intro c' h
      rw [hres] at h
      injection h with h2
      rw [← h2]
      exact hne

/-- A URI whose query mapping lacks the `secret` key, for the C3
witness. -/
def uriNoSecretKey : ParsedURI :=
  { scheme := "otpauth", authority := some "totp", segments := ["label"]
    query := some "digits=8" }

/-- Witness for C3: an otpauth URI with queries but no `secret` key
fails with `NoSecret`. -/
theorem secret_gate_iff_witness :
    TOTPComponents.parse_uri parseQueryStr uriNoSecretKey =
      .error .NoSecret :=
  (secret_gate_iff parseQueryStr uriNoSecretKey "digits=8" [("digits", "8")]
    rfl rfl rfl rfl).1.mpr (by decide)

/-- C9: when the scheme and authority gates pass, `parse_uri` fails with
`NoQueries` exactly when the query component is absent or the
query-string collaborator fails to produce a mapping for it. -/
theorem no_queries_iff (pq : String → Option Queries) (u : ParsedURI)
    (hcs : TOTPComponents.check_scheme u = .ok ())
    (hot : TOTPComponents.check_otp_type u = .ok ()) :
    TOTPComponents.parse_uri pq u = .error .NoQueries ↔
      u.query = none ∨ ∃ q, u.query = some q ∧ pq q = none := by
  constructor
  · intro h
    cases hq : u.query with
    | none => exact .inl rfl
    | some q =>
      cases hpq : pq q with
      | none => exact .inr ⟨q, rfl, hpq⟩
      | some m =>
        exfalso
        have hq' : TOTPComponents.parse_queries pq u = .ok m := by
          simp only [TOTPComponents.parse_queries, hq, hpq]
        rcases parse_uri_result_cases pq u m hcs hot hq' with
          ⟨hres, _⟩ | ⟨hres, _⟩ | ⟨a, _, hres, _⟩ | ⟨c, hres, _⟩
        all_goals simp [hres] at h
  · intro h
    have hq' : TOTPComponents.parse_queries pq u = .error .NoQueries := by
      rcases h with h | ⟨q, hq, hpq⟩
      · simp only [TOTPComponents.parse_queries, h]
      · simp only [TOTPComponents.parse_queries, hq, hpq]
    exact (parse_uri_gate_order pq u).2.2.2.2.1 _ hcs hot hq'

/-- A URI with no query component at all, for the C9 witness. -/
def uriNoQuery : ParsedURI :=
  { scheme := "otpauth", authority := some "totp", segments := [""]
    query := none }

/-- Witness for C9: an otpauth URI without a query component fails with
`NoQueries`. -/
theorem no_queries_iff_witness :
    TOTPComponents.parse_uri parseQueryStr uriNoQuery = .error .NoQueries :=
  (no_queries_iff parseQueryStr uriNoQuery rfl rfl).mpr (.inl rfl)

/-- C5: with the gates up to the secret passing, a present but
malformed `digits` or `period` value leaves the corresponding field
`none` without failing the parse; a present unrecognized `algorithm`
value fails the parse with `InvalidAlgorithm` carrying it; an absent
`algorithm` key gives an algorithm field of `none`. -/
theorem optional_field_policy (pq : String → Option Queries) (u : ParsedURI)
    (q : String) (m : Queries)
    (hcs : TOTPComponents.check_scheme u = .ok ())
    (hot : TOTPComponents.check_otp_type u = .ok ())
    (hq : u.query = some q) (hpq : pq q = some m)
    (S : String) (hsec : m.get_string_value "secret" = some S) (hS : S ≠ "") :
    (∀ v x, m.get_string_value "digits" = some v →
      parseBoundedNat 255 v = none →
      TOTPComponents.get_algorithm m = .ok x →
      ∃ c, TOTPComponents.parse_uri pq u = .ok c ∧ c.digits = none) ∧
    (∀ v x, m.get_string_value "period" = some v →
      parseBoundedNat 65535 v = none →
      TOTPComponents.get_algorithm m = .ok x →
      ∃ c, TOTPComponents.parse_uri pq u = .ok c ∧ c.period = none) ∧
    (∀ v, m.get_string_value "algorithm" = some v →
      (∀ x, Algorithm.new v ≠ .ok x) →
      TOTPComponents.parse_uri pq u = .error (.InvalidAlgorithm v)) ∧
    (m.get_string_value "algorithm" = none →
      ∃ c, TOTPComponents.parse_uri pq u = .ok c ∧ c.algorithm = none) := by
  have hq' : TOTPComponents.parse_queries pq u = .ok m := by
    simp only [TOTPComponents.parse_queries, hq, hpq]
  have hsec' : TOTPComponents.get_secret m = .ok S := by
    simp only [TOTPComponents.get_secret, hsec]
    rw [if_neg hS]
  refine ⟨?_, ?_, ?_, ?_⟩
  · intro v x hv hparse halg
    refine ⟨_, parse_uri_ok_eq pq u m hcs hot hq' S hsec' x halg, ?_⟩
    simp only [Queries.get_string_parsable_value, hv, Option.some_bind, hparse]
  · intro v x hv hparse halg
    refine ⟨_, parse_uri_ok_eq pq u m hcs hot hq' S hsec' x halg, ?_⟩
    simp only [Queries.get_string_parsable_value, hv, Option.some_bind, hparse]
  · intro v hv hne
    have halg : TOTPComponents.get_algorithm m =
        .error (.InvalidAlgorithm v) := by
      simp only [TOTPComponents.get_algorithm, hv]
      cases hN : Algorithm.new v with
      | ok y => exact absurd hN (hne y)
      | error e => rw [Algorithm.new_error hN]
    exact (parse_uri_gate_order pq u).2.2.2.2.2.2 _ m S hcs hot hq' hsec' halg
  · intro hnone
    have halg : TOTPComponents.get_algorithm m = .ok none := by
      simp only [TOTPComponents.get_algorithm, hnone]
    exact ⟨_, parse_uri_ok_eq pq u m hcs hot hq' S hsec' none halg, rfl⟩

/-- A URI whose `digits` value does not fit in an unsigned 8-bit
integer, for the C5 witness. -/
def uriMalformedDigits : ParsedURI :=
  { scheme := "otpauth", authority := some "totp", segments := ["label"]
    query := some "secret=abc&digits=300" }

/-- Witness for C5: a `digits` value of 300 (out of u8 range) parses
successfully with a digits field of `none`. -/
theorem optional_field_policy_witness :
    (TOTPComponents.parse_uri parseQueryStr uriMalformedDigits).map
      TOTPComponents.digits = .ok none := by
  obtain ⟨c, hc, hd⟩ :=
    (optional_field_policy parseQueryStr uriMalformedDigits
      "secret=abc&digits=300" [("secret", "abc"), ("digits", "300")]
      rfl rfl rfl rfl "abc" rfl (by decide)).1 "300" none rfl (by decide) rfl
  rw [hc]
  simp [Except.map, hd]

theorem mobile_generate_token_def (hmac : HmacFun) (uri : String) (t : Nat) :
    TotpTokenGenerator.generate_token hmac uri t =
      if containsSub uri "otpauth" then
        Except.bind (TOTP.from_uri uri) fun totp =>
          Except.bind (totp.generate_token hmac t) fun token =>
            .ok { totp := totp, token := token, timestamp := t }
      else
        Except.bind (Except.ok { TOTP.default with secret := uri }) fun totp =>
          Except.bind (totp.generate_token hmac t) fun token =>
            .ok { totp := totp, token := token, timestamp := t } := by
  by_cases hc : containsSub uri "otpauth" = true
  · rw [if_pos hc]
    unfold TotpTokenGenerator.generate_token
    rw [if_pos hc]
    rfl
  · rw [if_neg hc]
    unfold TotpTokenGenerator.generate_token
    rw [if_neg hc]
    rfl

theorem mobile_tail_timestamp (hmac : HmacFun) (t : Nat)
    (te : Except TOTPError TOTP) (r : TotpTokenResult)
    (h : Except.bind te (fun totp =>
      Except.bind (totp.generate_token hmac t) fun token =>
        .ok { totp := totp, token := token, timestamp := t }) = .ok r) :
    r.timestamp = t := by
  cases te with
  | error e => rw [except_bind_error] at h; cases h
  | ok totp =>
    rw [except_bind_ok] at h
    cases hg : TOTP.generate_token hmac totp t with
    | error e => rw [hg, except_bind_error] at h; cases h
    | ok token =>
      rw [hg, except_bind_ok] at h
      injection h with h2
      rw [← h2]

/-- C10: the mobile token generator dispatches on substring containment
of `otpauth`, not on a parse attempt: inputs containing the substring go
through `TOTP::from_uri` with any parse error returned, inputs without
it are used verbatim as the secret of a fully defaulted TOTP, and every
successful result carries the supplied time as its timestamp. -/
theorem mobile_generate_token_dispatch (hmac : HmacFun) (uri : String)
    (t : Nat) :
    (containsSub uri "otpauth" = true →
      ∀ e, TOTP.from_uri uri = .error e →
        TotpTokenGenerator.generate_token hmac uri t = .error e) ∧
    (containsSub uri "otpauth" = false →
      TotpTokenGenerator.generate_token hmac uri t =
        (TOTP.generate_token hmac { TOTP.default with secret := uri } t).map
          fun token =>
            { totp := { TOTP.default with secret := uri }
              token := token, timestamp := t }) ∧
    (∀ r, TotpTokenGenerator.generate_token hmac uri t = .ok r →
      r.timestamp = t) := by
  refine ⟨?_, ?_, ?_⟩
  · intro hc e he
    rw [mobile_generate_token_def, if_pos hc, he, except_bind_error]
  · intro hc
    rw [mobile_generate_token_def, if_neg (by simp [hc]), except_bind_ok]
    cases hg : TOTP.generate_token hmac { TOTP.default with secret := uri } t with
    | error e => rfl
    | ok token => rfl
  · intro r hr
    rw [mobile_generate_token_def] at hr
    by_cases hc : containsSub uri "otpauth" = true
    · rw [if_pos hc] at hr
      exact mobile_tail_timestamp hmac t _ r hr
    · rw [if_neg hc] at hr
      exact mobile_tail_timestamp hmac t _ r hr

/-- Witness for C10: a bare secret not containing `otpauth` is used
verbatim with all other fields defaulted, and the timestamp equals the
supplied time. -/
theorem mobile_generate_token_dispatch_witness :
    TotpTokenGenerator.generate_token hmacZeros "MYSECRET" 59 =
      .ok { totp := { TOTP.default with secret := "MYSECRET" }
            token := "000000", timestamp := 59 } := by
  rw [(mobile_generate_token_dispatch hmacZeros "MYSECRET" 59).2.1 (by decide)]
  rfl

/-! ## Supporting lemmas: breaking and splitting character lists -/

theorem breakAtChar_not_mem {c : Char} {l : List Char} (h : c ∉ l) :
    breakAtChar c l = none := by
  induction l with
  | nil => rfl
  | cons x xs ih =>
    rw [breakAtChar]
    rw [if_neg (by intro he; exact h (he ▸ List.mem_cons_self x xs))]
    rw [ih (fun hm => h (List.mem_cons_of_mem x hm))]
    rfl

theorem breakAtChar_append {c : Char} {a : List Char} (b : List Char)
    (h : c ∉ a) : breakAtChar c (a ++ c :: b) = some (a, b) := by
  induction a with
  | nil => simp [breakAtChar]
  | cons x xs ih =>
    rw [List.cons_append, breakAtChar]
    rw [if_neg (by intro he; exact h (he ▸ List.mem_cons_self x xs))]
    rw [ih (fun hm => h (List.mem_cons_of_mem x hm))]
    rfl

theorem breakAtChar_some {c : Char} : ∀ {l x y : List Char},
    breakAtChar c l = some (x, y) → l = x ++ c :: y ∧ c ∉ x := by
  intro l
  induction l with
  | nil => intro x y h; cases h
  | cons z zs ih =>
    intro x y h
    rw [breakAtChar] at h
    by_cases hz : z = c
    · rw [if_pos hz] at h
      injection h with h2
      injection h2 with hx hy
      subst hx
      subst hy
      exact ⟨by rw [hz]; rfl, List.not_mem_nil _⟩
    · rw [if_neg hz] at h
      cases hb : breakAtChar c zs with
      | none => rw [hb] at h; cases h
      | some p =>
        rw [hb] at h
        injection h with h2
        injection h2 with hx hy
        obtain ⟨hl, hnm⟩ := ih hb
        subst hy
        rw [← hx]
        constructor
        · rw [List.cons_append, ← hl]
        · intro hm
          rcases List.mem_cons.mp hm with hm | hm
          · exact hz hm.symm
          · exact hnm hm

theorem splitOnChar_ne_nil (c : Char) (l : List Char) :
    splitOnChar c l ≠ [] := by
  induction l with
  | nil => simp [splitOnChar]
  | cons x xs ih =>
    rw [splitOnChar]
    by_cases hx : x = c
    · rw [if_pos hx]; simp
    · rw [if_neg hx]
      cases h : splitOnChar c xs with
      | nil => simp
      | cons a as => simp

theorem splitOnChar_not_mem {c : Char} {l : List Char} (h : c ∉ l) :
    splitOnChar c l = [l] := by
  induction l with
  | nil => rfl
  | cons x xs ih =>
    rw [splitOnChar]
    rw [if_neg (by intro he; exact h (he ▸ List.mem_cons_self x xs))]
    rw [ih (fun hm => h (List.mem_cons_of_mem x hm))]

theorem splitOnChar_append {c : Char} {a : List Char} (b : List Char)
    (h : c ∉ a) : splitOnChar c (a ++ c :: b) = a :: splitOnChar c b := by
  induction a with
  | nil =>
    rw [List.nil_append, splitOnChar, if_pos rfl]
  | cons x xs ih =>
    rw [List.cons_append, splitOnChar]
    rw [if_neg (by intro he; exact h (he ▸ List.mem_cons_self x xs))]
    rw [ih (fun hm => h (List.mem_cons_of_mem x hm))]

theorem mem_splitOnChar {c : Char} : ∀ {l x : List Char},
    x ∈ splitOnChar c l → c ∉ x ∧ ∀ a ∈ x, a ∈ l := by
  intro l
  induction l with
  | nil =>
    intro x h
    rw [splitOnChar] at h
    rcases List.mem_singleton.mp h with h
    subst h
    exact ⟨List.not_mem_nil c, fun a ha => absurd ha (List.not_mem_nil a)⟩
  | cons z zs ih =>
    intro x h
    rw [splitOnChar] at h
    by_cases hz : z = c
    · rw [if_pos hz] at h
      rcases List.mem_cons.mp h with h | h
      · subst h
        exact ⟨List.not_mem_nil c, fun a ha => absurd ha (List.not_mem_nil a)⟩
      · obtain ⟨h1, h2⟩ := ih h
        exact ⟨h1, fun a ha => List.mem_cons_of_mem z (h2 a ha)⟩
    · rw [if_neg hz] at h
      cases hs : splitOnChar c zs with
      | nil => exact absurd hs (splitOnChar_ne_nil c zs)
      | cons p ps =>
        rw [hs] at h
        rcases List.mem_cons.mp h with h | h
        · subst h
          have hp : p ∈ splitOnChar c zs := hs ▸ List.mem_cons_self p ps
          obtain ⟨h1, h2⟩ := ih hp
          refine ⟨?_, ?_⟩
          · intro hm
            rcases List.mem_cons.mp hm with hm | hm
            · exact hz hm.symm
            · exact h1 hm
          · intro a ha
            rcases List.mem_cons.mp ha with ha | ha
            · exact ha ▸ List.mem_cons_self z zs
            · exact List.mem_cons_of_mem z (h2 a ha)
        · have hp : x ∈ splitOnChar c zs := hs ▸ List.mem_cons_of_mem p h
          obtain ⟨h1, h2⟩ := ih hp
          exact ⟨h1, fun a ha => List.mem_cons_of_mem z (h2 a ha)⟩

/-! ## Supporting lemmas: decimal rendering round-trip -/

theorem digitToChar_toNat {n : Nat} (h : n < 10) :
    (digitToChar n).toNat = 48 + n := by
  unfold digitToChar
  exact toNat_ofNat_valid _ (by omega)

theorem digitToChar_isDigit {n : Nat} (h : n < 10) :
    (digitToChar n).isDigit = true := by
  interval_cases n <;> decide

theorem decChars_ne_nil {fuel n : Nat} (h : 0 < fuel) :
    decChars fuel n ≠ [] := by
  cases fuel with
  | zero => omega
  | succ m =>
    rw [decChars]
    by_cases h10 : n < 10
    · rw [if_pos h10]; simp
    · rw [if_neg h10]; simp

theorem decChars_all_digits : ∀ fuel n, ∀ c ∈ decChars fuel n,
    c.isDigit = true := by
  intro fuel
  induction fuel with
  | zero => intro n c hc; cases hc
  | succ m ih =>
    intro n c hc
    rw [decChars] at hc
    by_cases h10 : n < 10
    · rw [if_pos h10] at hc
      rcases List.mem_singleton.mp hc with hc
      exact hc ▸ digitToChar_isDigit h10
    · rw [if_neg h10] at hc
      rcases List.mem_append.mp hc with hc | hc
      · exact ih (n / 10) c hc
      · rcases List.mem_singleton.mp hc with hc
        exact hc ▸ digitToChar_isDigit (Nat.mod_lt n (by norm_num))

theorem decChars_foldl_acc : ∀ fuel n acc, n < fuel →
    (decChars fuel n).foldl (fun a c => a * 10 + (c.toNat - 48)) acc =
      acc * 10 ^ (decChars fuel n).length + n := by
  intro fuel
  induction fuel with
  | zero => intro n acc h; omega
  | succ m ih =>
    intro n acc h
    rw [decChars]
    by_cases h10 : n < 10
    · rw [if_pos h10]
      simp only [List.foldl_cons, List.foldl_nil, List.length_singleton,
        pow_one]
      rw [digitToChar_toNat h10]
      omega
    · rw [if_neg h10]
      have hfm : n / 10 < m := by
        have hlt : n / 10 < n := Nat.div_lt_self (by omega) (by norm_num)
        omega
      rw [List.foldl_append]
      rw [ih (n / 10) acc hfm]
      simp only [List.foldl_cons, List.foldl_nil, List.length_append,
        List.length_singleton]
      rw [digitToChar_toNat (Nat.mod_lt n (by norm_num))]
      have hmod : n % 10 < 10 := Nat.mod_lt n (by norm_num)
      have hdm : n / 10 * 10 + n % 10 = n := by omega
      rw [pow_succ]
      have : acc * (10 ^ (decChars m (n / 10)).length * 10) =
          acc * 10 ^ (decChars m (n / 10)).length * 10 := by ring
      rw [this]
      omega

theorem parseDecNat_decRender (n : Nat) : parseDecNat (decRender n) = some n := by
  unfold parseDecNat decRender
  rw [if_pos]
  · have := decChars_foldl_acc (n + 1) n 0 (Nat.lt_succ_self n)
    rw [this]
    simp
  · constructor
    · exact decChars_ne_nil (Nat.succ_pos n)
    · exact List.all_eq_true.mpr fun c hc => decChars_all_digits (n + 1) n c hc

theorem parseBoundedNat_decRender {bound n : Nat} (h : n ≤ bound) :
    parseBoundedNat bound (decRender n) = some n := by
  unfold parseBoundedNat
  rw [parseDecNat_decRender]
  simp [h]

theorem parseBoundedNat_le {bound : Nat} {s : String} {n : Nat}
    (h : parseBoundedNat bound s = some n) : n ≤ bound := by
  unfold parseBoundedNat at h
  cases hp : parseDecNat s with
  | none => rw [hp] at h; cases h
  | some m =>
    rw [hp] at h
    simp only [Option.some_bind] at h
    by_cases hb : m ≤ bound
    · rw [if_pos hb] at h
      injection h with h2
      omega
    · rw [if_neg hb] at h
      cases h

theorem decRender_no_amp (n : Nat) : '&' ∉ (decRender n).data := by
  intro h
  have := decChars_all_digits (n + 1) n '&' h
  simp at this

/-! ## Supporting lemmas: parsing a serialized otpauth URI -/

theorem string_mk_data (s : String) : String.mk s.data = s := rfl

theorem parseAfterScheme_otpauth (rest₂ : List Char) :
    parseAfterScheme "otpauth".data ('/' :: '/' :: rest₂) =
      parseHierAuthority "otpauth" rest₂ := rfl

theorem parseURIList_otpauth (lbl q : List Char)
    (hl1 : '/' ∉ lbl) (hl2 : '?' ∉ lbl) :
    parseURIList ("otpauth://totp/".data ++ (lbl ++ '?' :: q)) =
      some { scheme := "otpauth", authority := some "totp"
             segments := [String.mk lbl], query := some (String.mk q) } := by
  have hq : '?' ∉ "totp".data ++ '/' :: lbl := by
    intro hm
    rcases List.mem_append.mp hm with hm | hm
    · exact absurd hm (by decide)
    · rcases List.mem_cons.mp hm with hm | hm
      · exact absurd hm (by decide)
      · exact hl2 hm
  have h1 : "totp".data ++ '/' :: (lbl ++ '?' :: q) =
      ("totp".data ++ '/' :: lbl) ++ '?' :: q := by
    simp [List.append_assoc]
  have h0 : "otpauth://totp/".data ++ (lbl ++ '?' :: q) =
      "otpauth".data ++ ':' ::
        ('/' :: '/' :: ("totp".data ++ '/' :: (lbl ++ '?' :: q))) := rfl
  rw [h0]
  unfold parseURIList
  rw [breakAtChar_append _ (by decide)]
  dsimp only
  rw [parseAfterScheme_otpauth]
  unfold parseHierAuthority
  rw [show uriHierPart ("totp".data ++ '/' :: (lbl ++ '?' :: q)) =
      "totp".data ++ '/' :: lbl from by
    unfold uriHierPart
    rw [h1, breakAtChar_append q hq]]
  rw [show uriQueryPart ("totp".data ++ '/' :: (lbl ++ '?' :: q)) =
      some (String.mk q) from by
    unfold uriQueryPart
    rw [h1, breakAtChar_append q hq]]
  rw [splitOnChar_append lbl (by decide), splitOnChar_not_mem hl1]
  dsimp only
  rw [if_neg (by simp)]
  rfl

theorem joinQuery_parse : ∀ ps : Queries, ps ≠ [] →
    (∀ p ∈ ps, '&' ∉ p.1.data ∧ '=' ∉ p.1.data) →
    (∀ p ∈ ps, '&' ∉ p.2.data) →
    parseQueryList (joinQuery ps).data = ps := by
  intro ps
  induction ps with
  | nil => intro h; exact absurd rfl h
  | cons p rest ih =>
    intro _ hk hv
    obtain ⟨k, v⟩ := p
    have hk1 := hk (k, v) (List.mem_cons_self _ _)
    have hv1 := hv (k, v) (List.mem_cons_self _ _)
    cases rest with
    | nil =>
      show parseQueryList (k ++ "=" ++ v).data = [(k, v)]
      have hdata : (k ++ "=" ++ v).data = k.data ++ '=' :: v.data := by
        simp [List.append_assoc]
      rw [hdata]
      unfold parseQueryList
      rw [splitOnChar_not_mem (by
        intro hm
        rcases List.mem_append.mp hm with hm | hm
        · exact hk1.1 hm
        · rcases List.mem_cons.mp hm with hm | hm
          · exact absurd hm (by decide)
          · exact hv1 hm)]
      simp only [List.map_cons, List.map_nil]
      rw [breakAtChar_append v.data hk1.2]
    | cons p' rest' =>
      show parseQueryList
          (k ++ "=" ++ v ++ "&" ++ joinQuery (p' :: rest')).data =
        (k, v) :: p' :: rest'
      have hdata : (k ++ "=" ++ v ++ "&" ++ joinQuery (p' :: rest')).data =
          (k.data ++ '=' :: v.data) ++ '&' :: (joinQuery (p' :: rest')).data := by
        simp [List.append_assoc]
      rw [hdata]
      unfold parseQueryList
      rw [splitOnChar_append _ (by
        intro hm
        rcases List.mem_append.mp hm with hm | hm
        · exact hk1.1 hm
        · rcases List.mem_cons.mp hm with hm | hm
          · exact absurd hm (by decide)
          · exact hv1 hm)]
      rw [List.map_cons]
      have htail := ih (by simp)
        (fun p hp => hk p (List.mem_cons_of_mem _ hp))
        (fun p hp => hv p (List.mem_cons_of_mem _ hp))
      unfold parseQueryList at htail
      rw [htail]
      rw [breakAtChar_append v.data hk1.2]

theorem lowerStr_mem {A : String} {c : Char} (hm : c ∈ A.data)
    (hc : lowerChar c = c) : c ∈ (lowerStr A).data := by
  have : lowerChar c ∈ A.data.map lowerChar := List.mem_map_of_mem lowerChar hm
  rw [hc] at this
  exact this

theorem Algorithm.new_ok_chars {A : String} {alg : Algorithm}
    (h : Algorithm.new A = .ok alg) : '&' ∉ A.data ∧ '=' ∉ A.data := by
  unfold Algorithm.new at h
  constructor
  · intro hm
    split_ifs at h with h1 h2 h3
    · exact absurd (h1 ▸ lowerStr_mem hm (by decide)) (by decide)
    · exact absurd (h2 ▸ lowerStr_mem hm (by decide)) (by decide)
    · exact absurd (h3 ▸ lowerStr_mem hm (by decide)) (by decide)
  · intro hm
    split_ifs at h with h1 h2 h3
    · exact absurd (h1 ▸ lowerStr_mem hm (by decide)) (by decide)
    · exact absurd (h2 ▸ lowerStr_mem hm (by decide)) (by decide)
    · exact absurd (h3 ▸ lowerStr_mem hm (by decide)) (by decide)

theorem parseDecNat_chars {s : String} {n : Nat}
    (h : parseDecNat s = some n) : ∀ c ∈ s.data, c.isDigit = true := by
  unfold parseDecNat at h
  split_ifs at h with hc
  exact List.all_eq_true.mp hc.2

theorem parseBoundedNat_chars {bound : Nat} {s : String} {n : Nat}
    (h : parseBoundedNat bound s = some n) : ∀ c ∈ s.data, c.isDigit = true := by
  unfold parseBoundedNat at h
  cases hp : parseDecNat s with
  | none => rw [hp] at h; cases h
  | some m => exact parseDecNat_chars hp

theorem no_amp_of_digits {s : String}
    (h : ∀ c ∈ s.data, c.isDigit = true) : '&' ∉ s.data ∧ '=' ∉ s.data := by
  constructor
  · intro hm; exact absurd (h '&' hm) (by decide)
  · intro hm; exact absurd (h '=' hm) (by decide)

/-- C2: every well-formed otpauth URI of the canonical shape with a
valid algorithm token, a u8 digits value and a u16 period value parses
into exactly its constituent fields, the label taken untouched from the
last path segment. -/
theorem from_uri_well_formed (lbl S I A D P : String) (alg : Algorithm)
    (d p : Nat)
    (hlbl1 : lbl ≠ "") (hlbl2 : '/' ∉ lbl.data) (hlbl3 : '?' ∉ lbl.data)
    (hS1 : S ≠ "") (hS2 : '&' ∉ S.data)
    (hI : '&' ∉ I.data)
    (hA : Algorithm.new A = .ok alg)
    (hD : parseBoundedNat 255 D = some d)
    (hP : parseBoundedNat 65535 P = some p) :
    TOTPComponents.from_uri
      ("otpauth://totp/" ++ lbl ++ "?secret=" ++ S ++ "&issuer=" ++ I ++
       "&algorithm=" ++ A ++ "&digits=" ++ D ++ "&period=" ++ P) =
      .ok { label := some lbl, secret := S, issuer := some I
            algorithm := some alg, digits := some d, period := some p } := by
  have hAc := Algorithm.new_ok_chars hA
  have hDc := no_amp_of_digits (parseBoundedNat_chars hD)
  have hPc := no_amp_of_digits (parseBoundedNat_chars hP)
  set ps : Queries := [("secret", S), ("issuer", I), ("algorithm", A),
    ("digits", D), ("period", P)] with hps
  have hdata : ("otpauth://totp/" ++ lbl ++ "?secret=" ++ S ++ "&issuer=" ++
      I ++ "&algorithm=" ++ A ++ "&digits=" ++ D ++ "&period=" ++ P).data =
      "otpauth://totp/".data ++ (lbl.data ++ '?' :: (joinQuery ps).data) := by
    simp only [hps, joinQuery, String.data_append, List.append_assoc]
    rfl
  have hkeys : ∀ q ∈ ps, '&' ∉ q.1.data ∧ '=' ∉ q.1.data := by
    intro q hq
    simp only [hps, List.mem_cons, List.not_mem_nil, or_false] at hq
    rcases hq with rfl | rfl | rfl | rfl | rfl
    · exact ⟨(by decide : '&' ∉ "secret".data), (by decide : '=' ∉ "secret".data)⟩
    · exact ⟨(by decide : '&' ∉ "issuer".data), (by decide : '=' ∉ "issuer".data)⟩
    · exact ⟨(by decide : '&' ∉ "algorithm".data), (by decide : '=' ∉ "algorithm".data)⟩
    · exact ⟨(by decide : '&' ∉ "digits".data), (by decide : '=' ∉ "digits".data)⟩
    · exact ⟨(by decide : '&' ∉ "period".data), (by decide : '=' ∉ "period".data)⟩
  have hvals : ∀ q ∈ ps, '&' ∉ q.2.data := by
    intro q hq
    simp only [hps, List.mem_cons, List.not_mem_nil, or_false] at hq
    rcases hq with rfl | rfl | rfl | rfl | rfl
    · exact hS2
    · exact hI
    · exact hAc.1
    · exact hDc.1
    · exact hPc.1
  unfold TOTPComponents.from_uri parseURIStr
  rw [hdata]
  rw [parseURIList_otpauth lbl.data (joinQuery ps).data hlbl2 hlbl3]
  dsimp only
  rw [string_mk_data, string_mk_data]
  have hqueries : TOTPComponents.parse_queries parseQueryStr
      { scheme := "otpauth", authority := some "totp", segments := [lbl]
        query := some (joinQuery ps) } = .ok ps := by
    simp only [TOTPComponents.parse_queries, parseQueryStr]
    rw [joinQuery_parse ps (by simp [hps]) hkeys hvals]
  have hsec : TOTPComponents.get_secret ps = .ok S := by
    have hfind : Queries.get_string_value ps "secret" = some S := rfl
    simp only [TOTPComponents.get_secret, hfind]
    rw [if_neg hS1]
  have halg : TOTPComponents.get_algorithm ps = .ok (some alg) := by
    have hfind : Queries.get_string_value ps "algorithm" = some A := rfl
    simp only [TOTPComponents.get_algorithm, hfind, hA]
  rw [parse_uri_ok_eq parseQueryStr
    { scheme := "otpauth", authority := some "totp", segments := [lbl]
      query := some (joinQuery ps) }
    ps rfl rfl hqueries S hsec (some alg) halg]
  have hlab : TOTPComponents.parse_label
      { scheme := "otpauth", authority := some "totp", segments := [lbl]
        query := some (joinQuery ps) } = some lbl := by
    show (if lbl = "" then none else some lbl) = some lbl
    rw [if_neg hlbl1]
  have hdig : Queries.get_string_parsable_value ps 255 "digits" = some d := by
    show parseBoundedNat 255 D = some d
    exact hD
  have hper : Queries.get_string_parsable_value ps 65535 "period" = some p := by
    show parseBoundedNat 65535 P = some p
    exact hP
  rw [hlab, hdig, hper]
  rfl

/-! ## Supporting lemmas: facts recovered from a successful parse -/

theorem from_uri_ok_elim {s : String} {c : TOTPComponents}
    (h : TOTPComponents.from_uri s = .ok c) :
    ∃ u, parseURIList s.data = some u ∧
      TOTPComponents.parse_uri parseQueryStr u = .ok c := by
  unfold TOTPComponents.from_uri parseURIStr at h
  cases hp : parseURIList s.data with
  | none => rw [hp] at h; cases h
  | some u => rw [hp] at h; exact ⟨u, rfl, h⟩

theorem check_otp_type_ok_authority {u : ParsedURI}
    (h : TOTPComponents.check_otp_type u = .ok ()) :
    ∃ a, u.authority = some a := by
  unfold TOTPComponents.check_otp_type at h
  cases ha : u.authority with
  | none => rw [ha] at h; cases h
  | some a => exact ⟨a, rfl⟩

theorem parse_queries_ok_elim {pq : String → Option Queries} {u : ParsedURI}
    {qs : Queries} (h : TOTPComponents.parse_queries pq u = .ok qs) :
    ∃ q, u.query = some q ∧ pq q = some qs := by
  unfold TOTPComponents.parse_queries at h
  cases hq : u.query with
  | none => rw [hq] at h; cases h
  | some q =>
    rw [hq] at h
    dsimp only at h
    cases hpq : pq q with
    | none => rw [hpq] at h; cases h
    | some m =>
      rw [hpq] at h
      injection h with h2
      exact ⟨q, rfl, h2 ▸ hpq⟩

theorem get_secret_ok_elim {qs : Queries} {v : String}
    (h : TOTPComponents.get_secret qs = .ok v) : v ≠ "" := by
  unfold TOTPComponents.get_secret at h
  cases hg : qs.get_string_value "secret" with
  | none => rw [hg] at h; cases h
  | some w =>
    rw [hg] at h
    dsimp only at h
    by_cases hw : w = ""
    · rw [if_pos hw] at h; cases h
    · rw [if_neg hw] at h
      injection h with h2
      rw [← h2]
      exact hw

theorem parse_label_some_elim {u : ParsedURI} {l : String}
    (h : TOTPComponents.parse_label u = some l) :
    l ∈ u.segments ∧ l ≠ "" := by
  unfold TOTPComponents.parse_label at h
  cases hg : u.segments.getLast? with
  | none => rw [hg] at h; cases h
  | some v =>
    rw [hg] at h
    dsimp only at h
    by_cases hv : v = ""
    · rw [if_pos hv] at h; cases h
    · rw [if_neg hv] at h
      injection h with h2
      subst h2
      exact ⟨List.mem_of_getLast?_eq_some hg, hv⟩

theorem parseHierAuthority_segments {sch : String} {rest₂ : List Char}
    {u : ParsedURI} (h : parseHierAuthority sch rest₂ = some u)
    {qstr : String} (hq : u.query = some qstr) :
    ∀ seg ∈ u.segments, '/' ∉ seg.data ∧ '?' ∉ seg.data := by
  unfold parseHierAuthority at h
  cases hs : splitOnChar '/' (uriHierPart rest₂) with
  | nil => rw [hs] at h; cases h
  | cons auth pathSegs =>
    rw [hs] at h
    injection h with h2
    subst h2
    simp only at hq ⊢
    have hhier : '?' ∉ uriHierPart rest₂ := by
      unfold uriQueryPart at hq
      cases hb : breakAtChar '?' rest₂ with
      | none => rw [hb] at hq; cases hq
      | some p =>
        obtain ⟨hl, hnm⟩ := breakAtChar_some hb
        unfold uriHierPart
        rw [hb]
        exact hnm
    intro seg hseg
    by_cases hps : pathSegs = []
    · rw [if_pos hps] at hseg
      rcases List.mem_singleton.mp hseg with rfl
      exact ⟨by simp, by simp⟩
    · rw [if_neg hps] at hseg
      rcases List.mem_map.mp hseg with ⟨chunk, hchunk, rfl⟩
      have hmem : chunk ∈ splitOnChar '/' (uriHierPart rest₂) := by
        rw [hs]
        exact List.mem_cons_of_mem auth hchunk
      obtain ⟨hslash, hsub⟩ := mem_splitOnChar hmem
      refine ⟨hslash, ?_⟩
      intro hm
      exact hhier (hsub '?' hm)

theorem parseURIList_segments {l₀ : List Char} {u : ParsedURI}
    (h : parseURIList l₀ = some u) {a : String} (ha : u.authority = some a)
    {qstr : String} (hq : u.query = some qstr) :
    ∀ seg ∈ u.segments, '/' ∉ seg.data ∧ '?' ∉ seg.data := by
  unfold parseURIList at h
  cases hb : breakAtChar ':' l₀ with
  | none => rw [hb] at h; cases h
  | some p =>
    obtain ⟨sch, rest⟩ := p
    rw [hb] at h
    dsimp only at h
    unfold parseAfterScheme at h
    split_ifs at h
    split at h
    · exact parseHierAuthority_segments h hq
    · unfold parseHierPlain at h
      injection h with h2
      rw [← h2] at ha
      cases ha

theorem parseQueryList_values {l : List Char} {k v : String}
    (h : (parseQueryList l).get_string_value k = some v) : '&' ∉ v.data := by
  unfold Queries.get_string_value at h
  cases hf : (parseQueryList l).find? fun p => p.1 = k with
  | none => rw [hf] at h; cases h
  | some pr =>
    rw [hf] at h
    injection h with h2
    have hmem := List.mem_of_find?_eq_some hf
    unfold parseQueryList at hmem
    rcases List.mem_map.mp hmem with ⟨chunk, hchunk, hpr⟩
    obtain ⟨hamp, hsub⟩ := mem_splitOnChar hchunk
    cases hbk : breakAtChar '=' chunk with
    | none =>
      rw [hbk] at hpr
      rw [← hpr] at h2
      rw [← h2]
      simp
    | some q =>
      obtain ⟨k', v'⟩ := q
      rw [hbk] at hpr
      obtain ⟨hchunkeq, _⟩ := breakAtChar_some hbk
      rw [← hpr] at h2
      rw [← h2]
      intro hm
      apply hamp
      rw [hchunkeq]
      exact List.mem_append.mpr (.inr (List.mem_cons_of_mem _ hm))

theorem gspv_le {qs : Queries} {bound : Nat} {key : String} {n : Nat}
    (h : qs.get_string_parsable_value bound key = some n) : n ≤ bound := by
  unfold Queries.get_string_parsable_value at h
  cases hg : qs.get_string_value key with
  | none => rw [hg] at h; cases h
  | some v =>
    rw [hg] at h
    exact parseBoundedNat_le h

theorem from_uri_ok_facts {s : String} {c : TOTPComponents}
    (h : TOTPComponents.from_uri s = .ok c) :
    (∀ l, c.label = some l → l ≠ "" ∧ '/' ∉ l.data ∧ '?' ∉ l.data) ∧
    (∀ i, c.issuer = some i → '&' ∉ i.data) ∧
    (∀ d, c.digits = some d → d ≤ 255) ∧
    (∀ p, c.period = some p → p ≤ 65535) ∧
    c.secret ≠ "" := by
  obtain ⟨u, hu, hparse⟩ := from_uri_ok_elim h
  obtain ⟨hcs, hot, qs, hqs, hsec, hlab, hiss, halg, hdig, hper⟩ :=
    parse_uri_ok_inv hparse
  obtain ⟨a, ha⟩ := check_otp_type_ok_authority hot
  obtain ⟨qstr, hq, hpq⟩ := parse_queries_ok_elim hqs
  have hqs_eq : qs = parseQueryList qstr.data := by
    unfold parseQueryStr at hpq
    injection hpq with h2
    rw [h2]
  refine ⟨?_, ?_, ?_, ?_, get_secret_ok_elim hsec⟩
  · intro l hl
    rw [hlab] at hl
    obtain ⟨hmem, hne⟩ := parse_label_some_elim hl
    obtain ⟨h1, h2⟩ := parseURIList_segments hu ha hq l hmem
    exact ⟨hne, h1, h2⟩
  · intro i hi
    rw [hiss] at hi
    rw [hqs_eq] at hi
    exact parseQueryList_values hi
  · intro d hd
    rw [hdig] at hd
    exact gspv_le hd
  · intro p hp
    rw [hper] at hp
    exact gspv_le hp

/-! ## Supporting lemmas: the serialized components round-trip -/

theorem mem_queryPairs {c : TOTPComponents} {pr : String × String}
    (h : pr ∈ queryPairs c) :
    pr = ("secret", c.secret) ∨
    (∃ i, c.issuer = some i ∧ pr = ("issuer", i)) ∨
    (∃ a, c.algorithm = some a ∧ pr = ("algorithm", a.toStr)) ∨
    (∃ d, c.digits = some d ∧ pr = ("digits", decRender d)) ∨
    (∃ p, c.period = some p ∧ pr = ("period", decRender p)) := by
  unfold queryPairs at h
  rcases List.mem_cons.mp h with h | h
  · exact .inl h
  · rcases List.mem_append.mp h with h | h
    · rcases List.mem_append.mp h with h | h
      · rcases List.mem_append.mp h with h | h
        · cases hi : c.issuer with
          | none => rw [hi] at h; cases h
          | some i =>
            rw [hi] at h
            rcases List.mem_singleton.mp h with rfl
            exact .inr (.inl ⟨i, rfl, rfl⟩)
        · cases ha : c.algorithm with
          | none => rw [ha] at h; cases h
          | some a =>
            rw [ha] at h
            rcases List.mem_singleton.mp h with rfl
            exact .inr (.inr (.inl ⟨a, rfl, rfl⟩))
      · cases hd : c.digits with
        | none => rw [hd] at h; cases h
        | some d =>
          rw [hd] at h
          rcases List.mem_singleton.mp h with rfl
          exact .inr (.inr (.inr (.inl ⟨d, rfl, rfl⟩)))
    · cases hp : c.period with
      | none => rw [hp] at h; cases h
      | some p =>
        rw [hp] at h
        rcases List.mem_singleton.mp h with rfl
        exact .inr (.inr (.inr (.inr ⟨p, rfl, rfl⟩)))

theorem queryPairs_get_secret (c : TOTPComponents) :
    (queryPairs c).get_string_value "secret" = some c.secret := rfl

theorem queryPairs_get_issuer (c : TOTPComponents) :
    (queryPairs c).get_string_value "issuer" = c.issuer := by
  rcases c with ⟨lab, sec, iss, alg, dig, per⟩
  cases iss <;> cases alg <;> cases dig <;> cases per <;> rfl

theorem queryPairs_get_algorithm (c : TOTPComponents) :
    (queryPairs c).get_string_value "algorithm" =
      c.algorithm.map Algorithm.toStr := by
  rcases c with ⟨lab, sec, iss, alg, dig, per⟩
  cases iss <;> cases alg <;> cases dig <;> cases per <;> rfl

theorem queryPairs_get_digits (c : TOTPComponents) :
    (queryPairs c).get_string_value "digits" = c.digits.map decRender := by
  rcases c with ⟨lab, sec, iss, alg, dig, per⟩
  cases iss <;> cases alg <;> cases dig <;> cases per <;> rfl

theorem queryPairs_get_period (c : TOTPComponents) :
    (queryPairs c).get_string_value "period" = c.period.map decRender := by
  rcases c with ⟨lab, sec, iss, alg, dig, per⟩
  cases iss <;> cases alg <;> cases dig <;> cases per <;> rfl

theorem Algorithm.new_toStr (a : Algorithm) :
    Algorithm.new a.toStr = .ok a := by
  cases a <;> rfl

/-- The serialized URI of valid components parses back to exactly those
components: nothing is dropped or altered by a save/parse round trip. -/
theorem from_uri_serialize {c : TOTPComponents}
    (hlbl : ∀ l, c.label = some l → l ≠ "" ∧ '/' ∉ l.data ∧ '?' ∉ l.data)
    (hsec1 : c.secret ≠ "") (hsec2 : '&' ∉ c.secret.data)
    (hiss : ∀ i, c.issuer = some i → '&' ∉ i.data)
    (hd : ∀ d, c.digits = some d → d ≤ 255)
    (hp : ∀ p, c.period = some p → p ≤ 65535) :
    TOTPComponents.from_uri (serializeComponents c) = .ok c := by
  have hL1 : '/' ∉ (c.label.getD "").data := by
    cases hl : c.label with
    | none => simp
    | some l => exact (hlbl l hl).2.1
  have hL2 : '?' ∉ (c.label.getD "").data := by
    cases hl : c.label with
    | none => simp
    | some l => exact (hlbl l hl).2.2
  have hdata : (serializeComponents c).data =
      "otpauth://totp/".data ++
        ((c.label.getD "").data ++ '?' :: (joinQuery (queryPairs c)).data) := by
    unfold serializeComponents
    simp [List.append_assoc]
  have hkeys : ∀ pr ∈ queryPairs c, '&' ∉ pr.1.data ∧ '=' ∉ pr.1.data := by
    intro pr hpr
    rcases mem_queryPairs hpr with rfl | ⟨i, _, rfl⟩ | ⟨a, _, rfl⟩ |
      ⟨d, _, rfl⟩ | ⟨p, _, rfl⟩
    · exact ⟨(by decide : '&' ∉ "secret".data),
        (by decide : '=' ∉ "secret".data)⟩
    · exact ⟨(by decide : '&' ∉ "issuer".data),
        (by decide : '=' ∉ "issuer".data)⟩
    · exact ⟨(by decide : '&' ∉ "algorithm".data),
        (by decide : '=' ∉ "algorithm".data)⟩
    · exact ⟨(by decide : '&' ∉ "digits".data),
        (by decide : '=' ∉ "digits".data)⟩
    · exact ⟨(by decide : '&' ∉ "period".data),
        (by decide : '=' ∉ "period".data)⟩
  have hvals : ∀ pr ∈ queryPairs c, '&' ∉ pr.2.data := by
    intro pr hpr
    rcases mem_queryPairs hpr with rfl | ⟨i, hi, rfl⟩ | ⟨a, _, rfl⟩ |
      ⟨d, _, rfl⟩ | ⟨p, _, rfl⟩
    · exact hsec2
    · exact hiss i hi
    · cases a <;> decide
    · exact decRender_no_amp d
    · exact decRender_no_amp p
  unfold TOTPComponents.from_uri parseURIStr
  rw [hdata]
  rw [parseURIList_otpauth (c.label.getD "").data
    (joinQuery (queryPairs c)).data hL1 hL2]
  dsimp only
  rw [string_mk_data, string_mk_data]
  have hqueries : TOTPComponents.parse_queries parseQueryStr
      { scheme := "otpauth", authority := some "totp"
        segments := [c.label.getD ""]
        query := some (joinQuery (queryPairs c)) } = .ok (queryPairs c) := by
    simp only [TOTPComponents.parse_queries, parseQueryStr]
    rw [joinQuery_parse (queryPairs c) (by simp [queryPairs]) hkeys hvals]
  have hsec : TOTPComponents.get_secret (queryPairs c) = .ok c.secret := by
    simp only [TOTPComponents.get_secret, queryPairs_get_secret]
    rw [if_neg hsec1]
  have halg : TOTPComponents.get_algorithm (queryPairs c) =
      .ok c.algorithm := by
    simp only [TOTPComponents.get_algorithm, queryPairs_get_algorithm]
    cases ha : c.algorithm with
    | none => rfl
    | some a =>
      dsimp only [Option.map]
      rw [Algorithm.new_toStr]
  rw [parse_uri_ok_eq parseQueryStr
    { scheme := "otpauth", authority := some "totp"
      segments := [c.label.getD ""]
      query := some (joinQuery (queryPairs c)) }
    (queryPairs c) rfl rfl hqueries c.secret hsec c.algorithm halg]
  have hlab : TOTPComponents.parse_label
      { scheme := "otpauth", authority := some "totp"
        segments := [c.label.getD ""]
        query := some (joinQuery (queryPairs c)) } = c.label := by
    show (if c.label.getD "" = "" then none else some (c.label.getD "")) =
      c.label
    cases hl : c.label with
    | none => simp
    | some l =>
      rw [if_neg (by simpa using (hlbl l hl).1)]
      simp
  have hdig : (queryPairs c).get_string_parsable_value 255 "digits" =
      c.digits := by
    unfold Queries.get_string_parsable_value
    rw [queryPairs_get_digits]
    cases hdd : c.digits with
    | none => rfl
    | some d =>
      show parseBoundedNat 255 (decRender d) = some d
      exact parseBoundedNat_decRender (hd d hdd)
  have hper : (queryPairs c).get_string_parsable_value 65535 "period" =
      c.period := by
    unfold Queries.get_string_parsable_value
    rw [queryPairs_get_period]
    cases hpp : c.period with
    | none => rfl
    | some p =>
      show parseBoundedNat 65535 (decRender p) = some p
      exact parseBoundedNat_decRender (hp p hpp)
  rw [hlab, hdig, hper, queryPairs_get_issuer]

/-- C6: when the edited value is a bare secret (no `otpauth` inside,
nonempty, no ampersand) and the original is a structured otpauth URI,
`uri_for_saving` rebuilds a URI that carries the label, issuer,
algorithm, digits and period of the original unchanged with the new
secret substituted: parsing the saved URI back yields exactly the
original components with only the secret replaced. -/
theorem uri_for_saving_preserves (original edited : String)
    (c : TOTPComponents)
    (ho : TOTPComponents.from_uri original = .ok c)
    (hno : containsSub edited "otpauth" = false)
    (hne : edited ≠ "") (hamp : '&' ∉ edited.data) :
    uri_for_saving original edited =
      .ok (serializeComponents { c with secret := edited }) ∧
    TOTPComponents.from_uri (serializeComponents { c with secret := edited }) =
      .ok { c with secret := edited } := by
  obtain ⟨hlbl, hiss, hd, hp, _⟩ := from_uri_ok_facts ho
  constructor
  · unfold uri_for_saving
    rw [if_neg (by simp [hno]), ho]
  · exact from_uri_serialize
      (fun l hl => hlbl l hl) hne hamp (fun i hi => hiss i hi)
      (fun d hdd => hd d hdd) (fun p hpp => hp p hpp)

/-- A structured original URI for the C6 witness. -/
def uriSavingOriginal : String :=
  "otpauth://totp/mylabel?secret=abc&issuer=Proton&algorithm=SHA256&digits=8&period=45"

/-- The components of `uriSavingOriginal`. -/
def componentsOriginal : TOTPComponents :=
  { label := some "mylabel", secret := "abc", issuer := some "Proton"
    algorithm := some .SHA256, digits := some 8, period := some 45 }

/-- Witness for C6: replacing only the secret of a structured URI keeps
label, issuer, algorithm, digits and period in the saved URI. -/
theorem uri_for_saving_preserves_witness :
    uri_for_saving uriSavingOriginal "NEWSECRET" =
      .ok (serializeComponents
        { componentsOriginal with secret := "NEWSECRET" }) ∧
    TOTPComponents.from_uri (serializeComponents
        { componentsOriginal with secret := "NEWSECRET" }) =
      .ok { componentsOriginal with secret := "NEWSECRET" } :=
  uri_for_saving_preserves uriSavingOriginal "NEWSECRET" componentsOriginal
    rfl (by decide) (by decide) (by decide)

/-- Witness for C2 at the explicit-parameters vector of the repository
test suite. -/
theorem from_uri_well_formed_witness :
    TOTPComponents.from_uri
      ("otpauth://totp/" ++ "john.doe%40example.com" ++ "?secret=" ++
       "somesecret" ++ "&issuer=" ++ "ProtonMail" ++ "&algorithm=" ++
       "SHA512" ++ "&digits=" ++ "8" ++ "&period=" ++ "45") =
      .ok { label := some "john.doe%40example.com", secret := "somesecret"
            issuer := some "ProtonMail", algorithm := some .SHA512
            digits := some 8, period := some 45 } :=
  from_uri_well_formed "john.doe%40example.com" "somesecret" "ProtonMail"
    "SHA512" "8" "45" .SHA512 8 45 (by decide) (by decide) (by decide)
    (by decide) (by decide) (by decide) rfl rfl rfl
